import Mathlib

/-!
Verification development for the `run view` command (`pkg/cmd/run/view/view.go`).

The source is shallowly embedded below.  Strings are modelled as lists of
characters (`Str`); on the ASCII inputs used by this command Go's byte-wise
operations agree with character-wise ones, and UTF-8 byte order coincides with
code-point order, so lexicographic comparisons transfer.  The zip container is
modelled as a list of already-decompressed entries (name and text content);
container-level corruption (`zip.NewReader` failure) is outside every claim
considered here and is not modelled.  Collaborators (the GitHub API client,
prompt UI, browser, pager) are modelled as oracle functions that may fail,
exactly as the source treats them as opaque fallible calls.
-/

/-- Strings modelled as character lists. -/
abbrev Str := List Char

/-! ## Go standard-library primitives used by `view.go` -/

/-- `strings.Split(s, sep)` for a single-character separator: splits at every
occurrence of `sep`, keeping empty fields; `Split("", sep) = [""]`. -/
def splitOnChar (sep : Char) : Str → List Str
  | [] => [[]]
  | c :: rest =>
    if c = sep then [] :: splitOnChar sep rest
    else
      match splitOnChar sep rest with
      | [] => [[c]]
      | p :: ps => (c :: p) :: ps

/-- `filepath.Split(name)`: splits after the last `/`; the directory part keeps
its trailing slash, and is empty when the name has no slash. -/
def filepathSplit : Str → Str × Str
  | [] => ([], [])
  | c :: rest =>
    if ('/' : Char) ∈ rest then
      let p := filepathSplit rest
      (c :: p.1, p.2)
    else if c = '/' then ([c], rest)
    else ([], c :: rest)

/-- Helper for `filepathExt`: walks the reversed name; stops with no extension
at a `/`, and returns the suffix from the first `.` found (scanning from the
end), accumulating the characters already passed. -/
def extRevAux : Str → Str → Str
  | [], _ => []
  | c :: rest, acc =>
    if c = '/' then []
    else if c = '.' then c :: acc
    else extRevAux rest (c :: acc)

/-- `filepath.Ext(name)`: the suffix of the final path element starting at its
last dot, or empty when the final element has no dot. -/
def filepathExt (name : Str) : Str := extRevAux name.reverse []

/-- `strings.TrimSuffix(s, suffix)`: removes one trailing copy of `suffix` when
present. -/
def trimSuffix (s suffix : Str) : Str :=
  if suffix.isSuffixOf s then s.take (s.length - suffix.length) else s

/-- ASCII decimal digit test, as in `strconv`. -/
def isDigit (c : Char) : Bool := '0' ≤ c && c ≤ '9'

/-- Decimal value of a digit string. -/
def digitsVal (l : Str) : Nat :=
  l.foldl (fun acc c => 10 * acc + (c.toNat - '0'.toNat)) 0

/-- Smallest Go `int` (64-bit) value. -/
def int64Min : Int := -(2 ^ 63)

/-- Largest Go `int` (64-bit) value. -/
def int64Max : Int := 2 ^ 63 - 1

/-- `strconv.Atoi(s)`: an optional `+`/`-` sign followed by at least one ASCII
digit, rejecting values outside the 64-bit `int` range (= `ParseInt(s, 10, 0)`
on a 64-bit platform; base 10 permits no underscores). -/
def atoi (s : Str) : Option Int :=
  let sd : Int × Str :=
    match s with
    | '+' :: rest => (1, rest)
    | '-' :: rest => (-1, rest)
    | l => (1, l)
  if sd.2 = [] then none
  else if sd.2.all isDigit then
    let v : Int := sd.1 * (digitsVal sd.2 : Int)
    if int64Min ≤ v ∧ v ≤ int64Max then some v else none
  else none

/-- `fmt.Sprintf("%d", i)` for a Go `int`. -/
def intToStr (i : Int) : Str :=
  if i < 0 then '-' :: Nat.toDigits 10 i.natAbs else Nat.toDigits 10 i.natAbs

/-! ## The log archive and its parser (`readRunLog`, view.go:456-507) -/

/-- One zip entry: full path and decompressed text content.  `readZipFile` read
errors are not modelled (content is already in memory). -/
structure Entry where
  name : Str
  content : Str
deriving DecidableEq

/-- Parse failures of `readRunLog`; the only entry-level failure in the source
is `errors.New("invalid step log filename")` (view.go:477,484). -/
inductive ParseError where
  | invalidStepFilename
deriving DecidableEq

/-- One step of a job: numeric order prefix, name, raw log text
(view.go:42-46).  The order is a Go `int`, so an `Int` here. -/
structure Step where
  order : Int
  name : Str
  logs : Str
deriving DecidableEq

/-- The in-memory hierarchy `runLog = map[string]*job` (view.go:35-40),
modelled as an insertion-ordered association list with unique keys; the job's
`name` field always equals its key in the source, so only the step list is
stored per key. -/
abbrev RunLog := List (Str × List Step)

/-- Directory component of an entry (with trailing slash). -/
def entryDir (e : Entry) : Str := (filepathSplit e.name).1

/-- Filename component of an entry. -/
def entryFile (e : Entry) : Str := (filepathSplit e.name).2

/-- The filter at view.go:474: top-level files (empty directory) and non-`.txt`
files are skipped. -/
def isLogEntry (e : Entry) : Bool :=
  !(entryDir e).isEmpty && (filepathExt e.name == ('.' :: 't' :: 'x' :: 't' :: []))

/-- Outcome of looking at one zip entry in the loop body of `readRunLog`. -/
inductive EntryResult where
  | skip
  | bad
  | good (jobName : Str) (st : Step)
deriving DecidableEq

/-- The loop body of `readRunLog` (view.go:469-503) for one entry: skip
non-log entries; split the filename on every underscore (`strings.Split`),
requiring exactly two parts; parse the order token with `strconv.Atoi`;
on success produce the job name (directory minus trailing slash) and the step. -/
def processEntry (e : Entry) : EntryResult :=
  if isLogEntry e then
    let parts := splitOnChar '_' (entryFile e)
    if parts.length = 2 then
      match atoi (parts.getD 0 []) with
      | none => .bad
      | some k =>
        .good (trimSuffix (entryDir e) ['/'])
          ⟨k, trimSuffix (parts.getD 1 []) ('.' :: 't' :: 'x' :: 't' :: []), e.content⟩
    else .bad
  else .skip

/-- Appending a step to the hierarchy: a fresh `job` record for an unseen job
name, otherwise append to the existing job's step slice (view.go:498-502). -/
def addStep (rl : RunLog) (jobName : Str) (st : Step) : RunLog :=
  match rl with
  | [] => [(jobName, [st])]
  | (n, sts) :: rest =>
    if n = jobName then (n, sts ++ [st]) :: rest
    else (n, sts) :: addStep rest jobName st

/-- The entry loop of `readRunLog`, carrying the map built so far: on a bad
entry it returns that partial map together with the error, exactly as the
source's `return rl, errors.New(...)`. -/
def readRunLogAux (rl : RunLog) : List Entry → RunLog × Option ParseError
  | [] => (rl, none)
  | e :: rest =>
    match processEntry e with
    | .skip => readRunLogAux rl rest
    | .bad => (rl, some .invalidStepFilename)
    | .good j st => readRunLogAux (addStep rl j st) rest

/-- `readRunLog` (view.go:456-507) on an already-decoded entry list. -/
def readRunLog (es : List Entry) : RunLog × Option ParseError :=
  readRunLogAux [] es

/-! ## The renderer (`displayRunLog`, view.go:518-547)

The pager acquisition (`StartPager`/`StopPager`) is pure I/O plumbing and is
not modelled; the renderer is modelled as the list of lines it writes.

Two points need care:

* Line scanning uses `bufio.NewScanner` with the default `ScanLines` split and
  the default maximum token size of 64 KiB.  `ScanLines` splits at `\n`,
  removes one trailing `\r` from each line, emits a final unterminated line,
  and emits nothing for empty input.  A segment of 65536 or more bytes with no
  newline overflows the scanner's buffer; `Scan` then returns `false` with
  `bufio.ErrTooLong`, and since the source never checks `scanner.Err()`, the
  remaining lines of that step are silently dropped.

* The step sort uses `sort.Slice` with `steps[i].order < steps[j].order`.
  `sort.Slice` is a comparison sort that Go documents as not guaranteed
  stable.  It is modelled here as an insertion sort, which coincides with the
  Go implementation whenever the comparison sort's result is unique (in
  particular whenever the orders within a job are pairwise distinct, since any
  comparison sort then returns the one sorted permutation) and for short step
  slices, which Go sorts by plain insertion sort.  Which permutation the real
  implementation picks for longer slices with duplicate orders depends on the
  Go toolchain, not on this repository.

`sort.Strings` on the job names needs no such caveat: the keys of the map are
pairwise distinct, so every comparison sort agrees. -/

/-- `bufio.ScanLines`' `dropCR`: removes one trailing carriage return. -/
def dropCR (l : Str) : Str :=
  if l.getLast? = some '\r' then l.dropLast else l

/-- `bufio.MaxScanTokenSize`: the scanner's default maximum token size. -/
def maxTokenSize : Nat := 65536

/-- The scan loop over the `\n`-separated segments of the input: each segment
shorter than the token limit is emitted with a trailing `\r` dropped; a
segment of `maxTokenSize` or more aborts the scan (`ErrTooLong`, unchecked in
the source); the final segment is the unterminated tail and is not emitted
when empty. -/
def scanLinesAux : List Str → List Str
  | [] => []
  | [last] =>
    if last = [] then []
    else if maxTokenSize ≤ last.length then []
    else [dropCR last]
  | seg :: rest =>
    if maxTokenSize ≤ seg.length then []
    else dropCR seg :: scanLinesAux rest

/-- All lines produced by `for scanner.Scan() { scanner.Text() }` over `s`
with the default `bufio` scanner. -/
def scanLines (s : Str) : List Str := scanLinesAux (splitOnChar '\n' s)

/-- Go string `<`: byte-wise lexicographic comparison; on `Str` this is
code-point lexicographic, which agrees because UTF-8 preserves code-point
order. -/
def strLt : Str → Str → Bool
  | [], [] => false
  | [], _ :: _ => true
  | _ :: _, [] => false
  | a :: as, b :: bs =>
    if a < b then true else if b < a then false else strLt as bs

/-- Insert a name into a sorted name list (ascending by `strLt`). -/
def insertName (n : Str) : List Str → List Str
  | [] => [n]
  | m :: rest => if strLt n m then n :: m :: rest else m :: insertName n rest

/-- `sort.Strings(jobNames)` (view.go:529): the keys are distinct, so the
result of any comparison sort is this insertion sort's result. -/
def sortNames : List Str → List Str
  | [] => []
  | n :: rest => insertName n (sortNames rest)

/-- Insert a step into a step list sorted ascending by `order`, after any step
of equal order. -/
def insertStep (st : Step) : List Step → List Step
  | [] => [st]
  | s :: rest =>
    if st.order < s.order then st :: s :: rest else s :: insertStep st rest

/-- `sort.Slice(steps, ...order < order...)` (view.go:534-536), modelled as an
insertion sort; see the section comment for the faithfulness caveat on ties. -/
def sortSteps : List Step → List Step
  | [] => []
  | s :: rest => insertStep s (sortSteps rest)

/-- Map lookup `rl[name]` returning the step slice. -/
def lookupJob : RunLog → Str → List Step
  | [], _ => []
  | (m, sts) :: rest, n => if m = n then sts else lookupJob rest n

/-- Concatenation of the lists produced for each element, in order. -/
def concatMap (f : α → List β) : List α → List β
  | [] => []
  | a :: as => f a ++ concatMap f as

/-- The lines printed for one step (view.go:537-543): each scanned line of the
step's log, prefixed by `jobName TAB stepName TAB`. -/
def stepLines (jobName : Str) (st : Step) : List Str :=
  (scanLines st.logs).map (fun line => jobName ++ '\t' :: st.name ++ '\t' :: line)

/-- `displayRunLog` (view.go:518-547) as the list of lines written: job names
sorted ascending, each job's steps sorted ascending by order, each step's
scanned log lines prefixed. -/
def displayRunLog (rl : RunLog) : List Str :=
  concatMap
    (fun n => concatMap (stepLines n) (sortSteps (lookupJob rl n)))
    (sortNames (rl.map Prod.fst))

/-- Line splitting as the specification describes it: split on `\n`, emit a
trailing unterminated partial line, but no empty phantom line after a final
terminator (and no line at all for empty text).  This definition follows the
spec's words, for comparison against the source-derived `scanLines`. -/
def dropLastEmpty : List Str → List Str
  | [] => []
  | [l] => if l = [] then [] else [l]
  | l :: rest => l :: dropLastEmpty rest

/-- Specification-side line splitting; see `dropLastEmpty`. -/
def specLines (s : Str) : List Str := dropLastEmpty (splitOnChar '\n' s)

/-! ## Run/job data and the view orchestration (`NewCmdView`, `runView`)

The types `shared.Status`, `shared.Conclusion` and the helper
`shared.IsFailureState` live in `pkg/cmd/run/shared`, which is not part of the
given source; they are modelled from the spec (see the doc comments).  All
collaborator calls (`api`, `shared.Get*`, prompts, browser, log fetches) are
oracle fields; every call made is recorded in a trace so that theorems can
speak about which collaborators were consulted and in which order. -/

/-- Modelled from the spec: the run/job status enum of `pkg/cmd/run/shared`
(not under the given source); §3 lists `Queued/InProgress/Completed`. -/
inductive Status where
  | queued
  | inProgress
  | completed
deriving DecidableEq

/-- Modelled from the spec: the conclusion enum of `pkg/cmd/run/shared` (not
under the given source); §3 lists `Success/Failure/Cancelled/…`, completed
here with the other GitHub Actions conclusions. -/
inductive Conclusion where
  | success
  | failure
  | cancelled
  | skipped
  | neutral
  | timedOut
  | actionRequired
  | startupFailure
deriving DecidableEq

/-- Modelled from the spec: `shared.IsFailureState` (not under the given
source).  The spec calls the exit condition "the resolved run/job's conclusion
is a failure state"; the failure states are the failing conclusions, and in
particular `Failure` is one and `Success` is not, which is all any theorem
below depends on. -/
def isFailureState (c : Conclusion) : Bool :=
  match c with
  | .failure | .timedOut | .actionRequired | .startupFailure => true
  | _ => false

/-- A workflow run as consumed by `runView` (identifier, status, conclusion,
display URL). -/
structure Run where
  id : Int
  status : Status
  conclusion : Conclusion
  url : Str
deriving DecidableEq

/-- A job as consumed by `runView` (identifier, owning run id, status,
conclusion, display URL). -/
structure Job where
  id : Int
  runID : Int
  status : Status
  conclusion : Conclusion
  url : Str
deriving DecidableEq

/-- One recorded collaborator call. -/
inductive Call where
  | getJob (id : Str)
  | getRuns (n : Nat)
  | promptRun (runs : List Run)
  | getRun (id : Str)
  | getJobs (runId : Int)
  | promptJob
  | browse (url : Str)
  | getJobLog (jobId : Int)
  | getRunLog (runId : Int)
  | pullRequest (runId : Int)
  | artifacts (runId : Int)
  | annotations (jobId : Int)
deriving DecidableEq

/-- Which step of `runView` failed (each corresponds to one wrapped error
return in the source). -/
inductive VErr where
  | getJobFail
  | getRunsFail
  | promptRunFail
  | getRunFail
  | getJobsFail
  | promptJobFail
  | notReadyJob
  | notReadyRun
  | jobLogFetch
  | runLogFetch
  | artifactsFail
  | annotationsFail
  | browseFail
deriving DecidableEq

/-- The two `cmdutil.FlagError`s produced before `runView` runs
(view.go:101,118). -/
inductive FlagErrKind where
  | missingTarget
  | webAndLog
deriving DecidableEq

/-- Process-level outcome of one invocation.  The exit code is non-zero
exactly when the outcome is not `ok`: `silentErr` is `cmdutil.SilentError`,
the rest are ordinary error returns. -/
inductive Outcome where
  | ok
  | silentErr
  | flagErr (k : FlagErrKind)
  | parseFail (p : ParseError)
  | runErr (v : VErr)
deriving DecidableEq

/-- The collaborators of `runView`, as fallible oracles. -/
structure Oracles where
  getJob : Str → Except Str Job
  getRuns : Nat → Except Str (List Run)
  promptRun : List Run → Except Str Str
  getRun : Str → Except Str Run
  getJobs : Run → Except Str (List Job)
  promptJob : List Job → Except Str (Option Job)
  getJobLog : Int → Except Str Str
  getRunLog : Int → Except Str (List Entry)
  browse : Str → Except Str Unit
  pullRequest : Run → Except Str Int
  artifacts : Int → Except Str (List (Str × Bool))
  annotations : Job → Except Str (List Str)

/-- What one invocation did: the collaborator calls in order, the outcome, and
the log lines written (log paths only; the summary-report text is out of
scope for every claim and not modelled). -/
structure Result where
  trace : List Call
  outcome : Outcome
  output : List Str
deriving DecidableEq

/-- The option record handed from the cobra wiring to `runView`
(view.go:48-64; only the fields `runView` reads). -/
structure Opts where
  runID : Str
  jobID : Str
  prompt : Bool
  web : Bool
  log : Bool
  exitStatus : Bool
  canPrompt : Bool
deriving DecidableEq

/-- The command-line surface: the optional positional run id, the `--job`
flag, the mode flags, and whether the session is interactive. -/
structure CmdInput where
  arg : Option Str
  jobID : Str
  web : Bool
  log : Bool
  exitStatus : Bool
  canPrompt : Bool
deriving DecidableEq

/-- The `RunE` wiring of `NewCmdView` (view.go:95-125): with no positional
argument and no `--job`, a non-interactive session is a `FlagError` and an
interactive one enters prompt mode; a positional argument becomes the run id;
when both a run id and a job id are present the run id is cleared (warning
separately in `wireWarned`); `--web` plus `--log` is a `FlagError`. -/
def wire (i : CmdInput) : Except FlagErrKind Opts :=
  if i.arg = none ∧ i.jobID = [] then
    if i.canPrompt = false then .error .missingTarget
    else if i.web && i.log then .error .webAndLog
    else .ok ⟨[], [], true, i.web, i.log, i.exitStatus, i.canPrompt⟩
  else
    let runID0 := i.arg.getD []
    let both := !runID0.isEmpty && !i.jobID.isEmpty
    let runID := if both then [] else runID0
    if i.web && i.log then .error .webAndLog
    else .ok ⟨runID, i.jobID, false, i.web, i.log, i.exitStatus, i.canPrompt⟩

/-- Whether the wiring prints the "both run and job IDs specified; ignoring
run ID" warning (view.go:109-115): both ids non-empty and the session
interactive. -/
def wireWarned (i : CmdInput) : Bool :=
  !(i.arg.getD []).isEmpty && !i.jobID.isEmpty && i.canPrompt

/-- A resolved target: the run, the selected job if any, and the jobs fetched
during prompting (empty otherwise). -/
abbrev ResolvedT := Run × Option Job × List Job

/-- `runView` lines 184-204: fetch the run by the (now known) id; in prompt
mode also fetch its jobs and, when there is more than one, prompt to narrow to
a single job ("view all" yields none). -/
def resolveRunPhase (opts : Opts) (o : Oracles) (runID : Str) (sel : Option Job) :
    List Call × Except VErr ResolvedT :=
  match o.getRun runID with
  | .error _ => ([.getRun runID], .error .getRunFail)
  | .ok run =>
    if opts.prompt then
      match o.getJobs run with
      | .error _ => ([.getRun runID, .getJobs run.id], .error .getJobsFail)
      | .ok jobs =>
        if 1 < jobs.length then
          match o.promptJob jobs with
          | .error _ => ([.getRun runID, .getJobs run.id, .promptJob], .error .promptJobFail)
          | .ok sel2 => ([.getRun runID, .getJobs run.id, .promptJob], .ok (run, sel2, jobs))
        else ([.getRun runID, .getJobs run.id], .ok (run, sel, jobs))
    else ([.getRun runID], .ok (run, sel, []))

/-- `runView` lines 170-182: in prompt mode fetch the 10 most recent runs and
prompt for one, replacing the run id; then continue with the run fetch. -/
def resolvePromptPhase (opts : Opts) (o : Oracles) (runID : Str) (sel : Option Job) :
    List Call × Except VErr ResolvedT :=
  if opts.prompt then
    match o.getRuns 10 with
    | .error _ => ([.getRuns 10], .error .getRunsFail)
    | .ok runs =>
      match o.promptRun runs with
      | .error _ => ([.getRuns 10, .promptRun runs], .error .promptRunFail)
      | .ok rid =>
        let p := resolveRunPhase opts o rid sel
        (.getRuns 10 :: .promptRun runs :: p.1, p.2)
  else resolveRunPhase opts o runID sel

/-- `runView` lines 157-204, the whole resolution flow: with `--job`, fetch
that job first and derive the run id from its `RunID` field (the supplied run
id was already discarded by the wiring); then the prompt and run-fetch
phases. -/
def resolveTarget (opts : Opts) (o : Oracles) : List Call × Except VErr ResolvedT :=
  match opts.jobID with
  | [] => resolvePromptPhase opts o opts.runID none
  | _ :: _ =>
    match o.getJob opts.jobID with
    | .error _ => ([.getJob opts.jobID], .error .getJobFail)
    | .ok j =>
      let p := resolvePromptPhase opts o (intToStr j.runID) (some j)
      (.getJob opts.jobID :: p.1, p.2)

/-- The browser path (view.go:206-216): open the job's URL (with the
check-suite focus query) when a job is selected, else the run's URL.
`--exit-status` is never consulted here. -/
def webPhase (o : Oracles) (run : Run) (sel : Option Job) : Result :=
  let url :=
    match sel with
    | some j => j.url ++ ('?' :: 'c' :: 'h' :: 'e' :: 'c' :: 'k' :: '_' :: 's' :: 'u' :: 'i' :: 't' :: 'e' :: '_' :: 'f' :: 'o' :: 'c' :: 'u' :: 's' :: '=' :: 't' :: 'r' :: 'u' :: 'e' :: [])
    | none => run.url
  match o.browse url with
  | .error _ => ⟨[.browse url], .runErr .browseFail, []⟩
  | .ok _ => ⟨[.browse url], .ok, []⟩

/-- The single-job `--log` path (view.go:220-246): requires the job to be
completed, copies the raw log to output, and exits non-zero when
`--exit-status` is set and the job's conclusion is a failure state. -/
def jobLogPhase (o : Oracles) (opts : Opts) (j : Job) : Result :=
  if j.status ≠ .completed then ⟨[], .runErr .notReadyJob, []⟩
  else
    match o.getJobLog j.id with
    | .error _ => ⟨[.getJobLog j.id], .runErr .jobLogFetch, []⟩
    | .ok content =>
      if opts.exitStatus && isFailureState j.conclusion then
        ⟨[.getJobLog j.id], .silentErr, [content]⟩
      else ⟨[.getJobLog j.id], .ok, [content]⟩

/-- The whole-run `--log` path (view.go:248-265): requires the run to be
completed, fetches and parses the archive, and on success renders it.
`--exit-status` is never consulted on this path, and a parse error is
returned without rendering anything. -/
def runLogPhase (o : Oracles) (run : Run) : Result :=
  if run.status ≠ .completed then ⟨[], .runErr .notReadyRun, []⟩
  else
    match o.getRunLog run.id with
    | .error _ => ⟨[.getRunLog run.id], .runErr .runLogFetch, []⟩
    | .ok es =>
      match (readRunLog es).2 with
      | some p => ⟨[.getRunLog run.id], .parseFail p, []⟩
      | none => ⟨[.getRunLog run.id], .ok, displayRunLog (readRunLog es).1⟩

/-- The annotation loop (view.go:291-301): fetch annotations job by job,
stopping at the first failure. -/
def annotLoop (o : Oracles) : List Job → List Call × Bool
  | [] => ([], false)
  | j :: rest =>
    match o.annotations j with
    | .error _ => ([.annotations j.id], true)
    | .ok _ => let p := annotLoop o rest
               (.annotations j.id :: p.1, p.2)

/-- Tail of the report path (view.go:317-374): the zero-jobs failed-run
special case, then the `--exit-status` checks against the run's (no selected
job) or the selected job's conclusion. -/
def reportFinish (opts : Opts) (run : Run) (sel : Option Job) (jobs : List Job)
    (t : List Call) : Result :=
  if jobs = [] ∧ run.conclusion = .failure then
    if opts.exitStatus then ⟨t, .silentErr, []⟩ else ⟨t, .ok, []⟩
  else
    match sel with
    | none =>
      if opts.exitStatus && isFailureState run.conclusion then ⟨t, .silentErr, []⟩
      else ⟨t, .ok, []⟩
    | some j =>
      if opts.exitStatus && isFailureState j.conclusion then ⟨t, .silentErr, []⟩
      else ⟨t, .ok, []⟩

/-- Annotations step of the report path: a failed fetch aborts the report. -/
def reportAnnotations (o : Oracles) (opts : Opts) (run : Run) (sel : Option Job)
    (jobs : List Job) (t : List Call) : Result :=
  match annotLoop o jobs with
  | (cs, true) => ⟨t ++ cs, .runErr .annotationsFail, []⟩
  | (cs, false) => reportFinish opts run sel jobs (t ++ cs)

/-- Artifacts step of the report path (view.go:283-289): fetched only when no
single job is selected; a failed fetch aborts the report. -/
def reportArtifacts (o : Oracles) (opts : Opts) (run : Run) (sel : Option Job)
    (jobs : List Job) (t : List Call) : Result :=
  match sel with
  | none =>
    match o.artifacts run.id with
    | .error _ => ⟨t ++ [.artifacts run.id], .runErr .artifactsFail, []⟩
    | .ok _ => reportAnnotations o opts run sel jobs (t ++ [.artifacts run.id])
  | some _ => reportAnnotations o opts run sel jobs t

/-- The report path (view.go:267-374): complete the job list (fetch all jobs
when none were selected or prompted, or use the selected job alone), look up
the pull-request number (failure swallowed, view.go:277-281), then artifacts,
annotations, and the final exit logic. -/
def reportPhase (o : Oracles) (opts : Opts) (run : Run) (sel : Option Job)
    (jobs0 : List Job) : Result :=
  match sel, jobs0 with
  | none, [] =>
    match o.getJobs run with
    | .error _ => ⟨[.getJobs run.id], .runErr .getJobsFail, []⟩
    | .ok js =>
      reportArtifacts o opts run none js [.getJobs run.id, .pullRequest run.id]
  | some j, _ => reportArtifacts o opts run (some j) [j] [.pullRequest run.id]
  | none, js => reportArtifacts o opts run none js [.pullRequest run.id]

/-- The four-way branch after resolution (view.go:206-374): browser, then
single-job log, then whole-run log, then report; exactly one runs. -/
def phaseOf (opts : Opts) (o : Oracles) (run : Run) (sel : Option Job)
    (jobs : List Job) : Result :=
  if opts.web then webPhase o run sel
  else if opts.log then
    match sel with
    | some j => jobLogPhase o opts j
    | none => runLogPhase o run
  else reportPhase o opts run sel jobs

/-- `runView` (view.go:137-375) after the wiring: resolve the target, then
exactly one of the four terminal paths.  The http-client and base-repo setup
(view.go:138-147) cannot fail in this model. -/
def runView (opts : Opts) (o : Oracles) : Result :=
  let rt := resolveTarget opts o
  match rt.2 with
  | .error v => ⟨rt.1, .runErr v, []⟩
  | .ok (run, sel, jobs) =>
    let r := phaseOf opts o run sel jobs
    ⟨rt.1 ++ r.trace, r.outcome, r.output⟩

/-- One whole invocation: the cobra wiring followed by `runView`.  A
`FlagError` from the wiring happens before any collaborator is consulted. -/
def runCommand (i : CmdInput) (o : Oracles) : Result :=
  match wire i with
  | .error k => ⟨[], .flagErr k, []⟩
  | .ok opts => runView opts o

/-! ## Outcome classes of the resolution flow

Observable characterisations of the four resolution outcomes the spec's
totality/exclusivity property speaks about, in terms of what an invocation
did: its first collaborator call, or the absence of any call together with the
missing-target error. -/

/-- The invocation failed with the missing-target `FlagError` without
consulting any collaborator. -/
def resMissing (r : Result) : Prop :=
  r.outcome = .flagErr .missingTarget ∧ r.trace = []

/-- The invocation resolved through the supplied job id: its first
collaborator call fetches a job. -/
def resJobDerived (r : Result) : Prop :=
  ∃ jid t, r.trace = Call.getJob jid :: t

/-- The invocation entered prompt mode: its first collaborator call lists the
10 most recent runs. -/
def resPrompted (r : Result) : Prop :=
  ∃ t, r.trace = Call.getRuns 10 :: t

/-- The invocation used the supplied run id directly: its first collaborator
call fetches that run. -/
def resDirect (i : CmdInput) (r : Result) : Prop :=
  ∃ rid t, i.arg = some rid ∧ r.trace = Call.getRun rid :: t

/-- Exactly one of the four resolution outcomes. -/
def exactlyOneRes (i : CmdInput) (r : Result) : Prop :=
  (resMissing r ∨ resJobDerived r ∨ resPrompted r ∨ resDirect i r)
  ∧ ¬(resMissing r ∧ resJobDerived r) ∧ ¬(resMissing r ∧ resPrompted r)
  ∧ ¬(resMissing r ∧ resDirect i r) ∧ ¬(resJobDerived r ∧ resPrompted r)
  ∧ ¬(resJobDerived r ∧ resDirect i r) ∧ ¬(resPrompted r ∧ resDirect i r)

/-! ## Concrete instances used by counterexamples and witnesses -/

/-- An oracle record in which every collaborator call fails; individual
scenarios override the calls they need. -/
def stubOracles : Oracles where
  getJob _ := .error "unused".data
  getRuns _ := .error "unused".data
  promptRun _ := .error "unused".data
  getRun _ := .error "unused".data
  getJobs _ := .error "unused".data
  promptJob _ := .error "unused".data
  getJobLog _ := .error "unused".data
  getRunLog _ := .error "unused".data
  browse _ := .error "unused".data
  pullRequest _ := .error "unused".data
  artifacts _ := .error "unused".data
  annotations _ := .error "unused".data

/-- A run that completed with conclusion `Failure`. -/
def failedRun : Run := ⟨123, .completed, .failure, "https://example.test/r/123".data⟩

/-- Oracles for the C1 scenario: run 123 completed and failed; its log archive
is valid and non-trivial. -/
def c1Oracles : Oracles :=
  { stubOracles with
    getRun := fun _ => .ok failedRun
    getRunLog := fun _ => .ok [⟨"build/1_step.txt".data, "ok\n".data⟩] }

/-- The C1 invocation: `gh run view 123 --log --exit-status`,
non-interactive. -/
def c1Input : CmdInput := ⟨some "123".data, [], false, true, true, false⟩

/-- The step log line at the scanner's token limit: 65536 characters, no
newline. -/
def bigLine : Str := List.replicate 65536 'a'

/-- A valid one-entry archive whose single step's log is one unterminated
64 KiB line. -/
def c6BadArchive : List Entry := [⟨"job/1_build.txt".data, bigLine⟩]

/-- The spec §8 example archive. -/
def c6ExArchive : List Entry :=
  [⟨"alpha/1_build.txt".data, "ok\n".data⟩,
   ⟨"alpha/2_test.txt".data, "fail\n".data⟩,
   ⟨"beta/1_build.txt".data, "ok\n".data⟩]

/-- Oracles for the C7 witness: job 456 exists and belongs to run 123. -/
def c7Oracles : Oracles :=
  { stubOracles with
    getJob := fun _ => .ok ⟨456, 123, .completed, .success, "u".data⟩ }

/-- The C7 witness invocation: `gh run view 99 --job 456` on an interactive
terminal. -/
def c7Input : CmdInput := ⟨some "99".data, "456".data, false, false, false, true⟩

/-- The C8 witness invocation: a run id, no job id, non-interactive. -/
def c8Input : CmdInput := ⟨some "123".data, [], false, false, false, false⟩

/-- A valid log entry for the C10 witness. -/
def c10Good : Entry := ⟨"alpha/1_build.txt".data, "ok\n".data⟩

/-- An invalid log entry (no underscore in the base name). -/
def c10Bad : Entry := ⟨"beta/nounderscore.txt".data, "x".data⟩

/-- Oracles for the C10 witness: run 123's archive has one valid entry and
then one invalid entry. -/
def c10Oracles : Oracles :=
  { stubOracles with
    getRun := fun _ => .ok failedRun
    getRunLog := fun _ => .ok [c10Good, c10Bad] }

/-! ## Helper lemmas -/

theorem concatMap_congr {f g : α → List β} {l : List α}
    (h : ∀ a ∈ l, f a = g a) : concatMap f l = concatMap g l := by
  induction l with
  | nil => rfl
  | cons a as ih =>
    simp only [concatMap]
    rw [h a (by simp), ih (fun a ha => h a (by simp [ha]))]

theorem mem_insertStep {st x : Step} {l : List Step} :
    x ∈ insertStep st l ↔ x = st ∨ x ∈ l := by
  induction l with
  | nil => simp [insertStep]
  | cons a rest ih =>
    simp only [insertStep]
    split
    · simp [List.mem_cons]
    · simp [List.mem_cons, ih]
      tauto

theorem mem_sortSteps {x : Step} {l : List Step} :
    x ∈ sortSteps l ↔ x ∈ l := by
  induction l with
  | nil => simp [sortSteps]
  | cons a rest ih => simp [sortSteps, mem_insertStep, ih]

theorem mem_insertName {n x : Str} {l : List Str} :
    x ∈ insertName n l ↔ x = n ∨ x ∈ l := by
  induction l with
  | nil => simp [insertName]
  | cons a rest ih =>
    simp only [insertName]
    split
    · simp [List.mem_cons]
    · simp [List.mem_cons, ih]
      tauto

theorem mem_sortNames {x : Str} {l : List Str} :
    x ∈ sortNames l ↔ x ∈ l := by
  induction l with
  | nil => simp [sortNames]
  | cons a rest ih => simp [sortNames, mem_insertName, ih]

theorem lookupJob_mem {rl : RunLog} {n : Str} (h : n ∈ rl.map Prod.fst) :
    (n, lookupJob rl n) ∈ rl := by
  induction rl with
  | nil => simp at h
  | cons p rest ih =>
    obtain ⟨m, sts⟩ := p
    simp only [lookupJob]
    by_cases hm : m = n
    · subst hm
      simp
    · rw [if_neg hm]
      simp only [List.map_cons, List.mem_cons] at h
      rcases h with h | h
      · exact absurd h.symm hm
      · exact List.mem_cons_of_mem _ (ih h)

theorem splitOnChar_ne_nil (sep : Char) (l : Str) : splitOnChar sep l ≠ [] := by
  cases l with
  | nil => simp [splitOnChar]
  | cons c rest =>
    simp only [splitOnChar]
    split
    · simp
    · split <;> simp

theorem splitOnChar_of_not_mem {sep : Char} {l : Str} (h : sep ∉ l) :
    splitOnChar sep l = [l] := by
  induction l with
  | nil => rfl
  | cons c rest ih =>
    simp only [List.mem_cons, not_or] at h
    have hcs : ¬ c = sep := fun hc => h.1 hc.symm
    simp [splitOnChar, hcs, ih h.2]

theorem splitOnChar_append_sep {sep : Char} {pre suf : Str} (h : sep ∉ pre) :
    splitOnChar sep (pre ++ sep :: suf) = pre :: splitOnChar sep suf := by
  induction pre with
  | nil => simp [splitOnChar]
  | cons c rest ih =>
    simp only [List.mem_cons, not_or] at h
    have hcs : ¬ c = sep := fun hc => h.1 hc.symm
    have hsp := splitOnChar_ne_nil sep (rest ++ sep :: suf)
    simp [splitOnChar, hcs, ih h.2]

theorem scanLinesAux_of_short {L : List Str}
    (h : ∀ seg ∈ L, seg.length < maxTokenSize) :
    scanLinesAux L = (dropLastEmpty L).map dropCR := by
  induction L with
  | nil => rfl
  | cons l rest ih =>
    cases rest with
    | nil =>
      by_cases hl : l = []
      · subst hl
        rfl
      · have hlen : ¬ maxTokenSize ≤ l.length :=
          not_le.mpr (h l (by simp))
        simp [scanLinesAux, dropLastEmpty, hl, hlen]
    | cons l2 rest2 =>
      have hlen : ¬ maxTokenSize ≤ l.length := not_le.mpr (h l (by simp))
      simp only [scanLinesAux, dropLastEmpty, if_neg hlen, List.map_cons]
      rw [ih (fun seg hseg => h seg (by simp [hseg]))]

theorem scanLines_of_short {s : Str}
    (h : ∀ seg ∈ splitOnChar '\n' s, seg.length < maxTokenSize) :
    scanLines s = (specLines s).map dropCR :=
  scanLinesAux_of_short h

theorem readRunLogAux_err {es : List Entry} {e : Entry} (he : e ∈ es)
    (hbad : processEntry e = .bad) :
    ∀ rl, (readRunLogAux rl es).2 = some .invalidStepFilename := by
  induction es with
  | nil => cases he
  | cons a rest ih =>
    intro rl
    rcases List.mem_cons.mp he with h | h
    · subst h
      simp [readRunLogAux, hbad]
    · simp only [readRunLogAux]
      cases hpa : processEntry a with
      | skip => exact ih h rl
      | bad => rfl
      | good j st => exact ih h (addStep rl j st)

theorem readRunLogAux_partial {pre : List Entry} {e : Entry} (post : List Entry)
    (hpre : ∀ x ∈ pre, processEntry x ≠ .bad) (he : processEntry e = .bad) :
    ∀ rl, readRunLogAux rl (pre ++ e :: post)
      = ((readRunLogAux rl pre).1, some .invalidStepFilename) := by
  induction pre with
  | nil =>
    intro rl
    simp [readRunLogAux, he]
  | cons a rest ih =>
    intro rl
    have ha := hpre a (by simp)
    simp only [List.cons_append, readRunLogAux]
    cases hpa : processEntry a with
    | skip => exact ih (fun x hx => hpre x (by simp [hx])) rl
    | bad => exact absurd hpa ha
    | good j st => exact ih (fun x hx => hpre x (by simp [hx])) (addStep rl j st)

theorem processEntry_bad_iff {e : Entry} (h : isLogEntry e = true) :
    processEntry e = .bad
      ↔ ((splitOnChar '_' (entryFile e)).length ≠ 2
         ∨ atoi ((splitOnChar '_' (entryFile e)).getD 0 []) = none) := by
  simp only [processEntry, if_pos h]
  by_cases hl : (splitOnChar '_' (entryFile e)).length = 2
  · rw [if_pos hl]
    cases ha : atoi ((splitOnChar '_' (entryFile e)).getD 0 []) with
    | none => simp [hl]
    | some k => simp [hl, ha]
  · rw [if_neg hl]
    simp [hl]

theorem processEntry_good {e : Entry} (h : isLogEntry e = true)
    (hl : (splitOnChar '_' (entryFile e)).length = 2) {k : Int}
    (ha : atoi ((splitOnChar '_' (entryFile e)).getD 0 []) = some k) :
    processEntry e
      = .good (trimSuffix (entryDir e) ['/'])
          ⟨k, trimSuffix ((splitOnChar '_' (entryFile e)).getD 1 []) ".txt".data,
           e.content⟩ := by
  simp only [processEntry, if_pos h, if_pos hl, ha]

theorem filepathSplit_append {pre suf : Str} (hp : ('/' : Char) ∉ pre)
    (hs : ('/' : Char) ∉ suf) :
    filepathSplit (pre ++ '/' :: suf) = (pre ++ ['/'], suf) := by
  induction pre with
  | nil => simp [filepathSplit, hs]
  | cons c rest ih =>
    simp only [List.mem_cons, not_or] at hp
    have hmem : ('/' : Char) ∈ rest ++ '/' :: suf := by simp
    simp only [List.cons_append, filepathSplit, List.append_eq, if_pos hmem,
      ih hp.2, List.cons_append]

theorem filepathExt_txt (s : Str) :
    filepathExt (s ++ '.' :: 't' :: 'x' :: 't' :: []) = '.' :: 't' :: 'x' :: 't' :: [] := by
  rw [filepathExt, List.reverse_append]
  rfl

theorem trimSuffix_append (l s : Str) : trimSuffix (l ++ s) s = l := by
  have hsuf : s.isSuffixOf (l ++ s) = true :=
    List.isSuffixOf_iff_suffix.mpr (List.suffix_append _ _)
  have hlen : (l ++ s).length - s.length = l.length := by
    simp [List.length_append]
  rw [trimSuffix, if_pos hsuf, hlen, List.take_left]

theorem wire_missing {i : CmdInput} (ha : i.arg = none) (hj : i.jobID = [])
    (hc : i.canPrompt = false) : wire i = .error .missingTarget := by
  simp [wire, ha, hj, hc]

theorem wire_prompt {i : CmdInput} (ha : i.arg = none) (hj : i.jobID = [])
    (hc : i.canPrompt = true) (hwl : (i.web && i.log) = false) :
    wire i = .ok ⟨[], [], true, i.web, i.log, i.exitStatus, i.canPrompt⟩ := by
  simp [wire, ha, hj, hc, hwl]

theorem wire_job {i : CmdInput} (hj : i.jobID ≠ [])
    (hwl : (i.web && i.log) = false) :
    ∃ rid, wire i
      = .ok ⟨rid, i.jobID, false, i.web, i.log, i.exitStatus, i.canPrompt⟩ := by
  have hcond : ¬ (i.arg = none ∧ i.jobID = []) := fun h => hj h.2
  refine ⟨if (!(i.arg.getD []).isEmpty && !i.jobID.isEmpty) then [] else i.arg.getD [], ?_⟩
  simp [wire, hcond, hwl]

theorem wire_direct {i : CmdInput} {r : Str} (ha : i.arg = some r)
    (hj : i.jobID = []) (hwl : (i.web && i.log) = false) :
    wire i = .ok ⟨r, [], false, i.web, i.log, i.exitStatus, i.canPrompt⟩ := by
  have hcond : ¬ (i.arg = none ∧ i.jobID = []) := by simp [ha]
  simp [wire, hcond, ha, hj, hwl]

theorem resolveRunPhase_head (opts : Opts) (o : Oracles) (rid : Str)
    (sel : Option Job) :
    ∃ t, (resolveRunPhase opts o rid sel).1 = Call.getRun rid :: t := by
  cases hr : o.getRun rid with
  | error e =>
    refine ⟨[], ?_⟩
    simp [resolveRunPhase, hr]
  | ok run =>
    by_cases hp : opts.prompt = true
    · cases hjs : o.getJobs run with
      | error e =>
        refine ⟨[Call.getJobs run.id], ?_⟩
        simp [resolveRunPhase, hr, hp, hjs]
      | ok jobs =>
        by_cases hn : 1 < jobs.length
        · cases hpj : o.promptJob jobs with
          | error e =>
            refine ⟨[Call.getJobs run.id, Call.promptJob], ?_⟩
            simp [resolveRunPhase, hr, hp, hjs, hn, hpj]
          | ok sel2 =>
            refine ⟨[Call.getJobs run.id, Call.promptJob], ?_⟩
            simp [resolveRunPhase, hr, hp, hjs, hn, hpj]
        · refine ⟨[Call.getJobs run.id], ?_⟩
          simp [resolveRunPhase, hr, hp, hjs, hn]
    · have hp' : opts.prompt = false := by
        cases h : opts.prompt
        · rfl
        · exact absurd h hp
      refine ⟨[], ?_⟩
      simp [resolveRunPhase, hr, hp']

theorem resolvePromptPhase_noprompt (opts : Opts) (o : Oracles) (rid : Str)
    (sel : Option Job) (hp : opts.prompt = false) :
    resolvePromptPhase opts o rid sel = resolveRunPhase opts o rid sel := by
  simp [resolvePromptPhase, hp]

theorem resolvePromptPhase_prompt_head (opts : Opts) (o : Oracles) (rid : Str)
    (sel : Option Job) (hp : opts.prompt = true) :
    ∃ t, (resolvePromptPhase opts o rid sel).1 = Call.getRuns 10 :: t := by
  cases hr : o.getRuns 10 with
  | error e =>
    refine ⟨[], ?_⟩
    simp [resolvePromptPhase, hp, hr]
  | ok runs =>
    cases hpr : o.promptRun runs with
    | error e =>
      refine ⟨[Call.promptRun runs], ?_⟩
      simp [resolvePromptPhase, hp, hr, hpr]
    | ok rid2 =>
      refine ⟨Call.promptRun runs :: (resolveRunPhase opts o rid2 sel).1, ?_⟩
      simp [resolvePromptPhase, hp, hr, hpr]

theorem resolvePromptPhase_prompt_two (opts : Opts) (o : Oracles) (rid : Str)
    (sel : Option Job) {runs : List Run} (hp : opts.prompt = true)
    (hr : o.getRuns 10 = .ok runs) :
    ∃ t, (resolvePromptPhase opts o rid sel).1
      = Call.getRuns 10 :: Call.promptRun runs :: t := by
  cases hpr : o.promptRun runs with
  | error e =>
    refine ⟨[], ?_⟩
    simp [resolvePromptPhase, hp, hr, hpr]
  | ok rid2 =>
    refine ⟨(resolveRunPhase opts o rid2 sel).1, ?_⟩
    simp [resolvePromptPhase, hp, hr, hpr]

theorem resolveTarget_nojob (opts : Opts) (o : Oracles) (hj : opts.jobID = []) :
    resolveTarget opts o = resolvePromptPhase opts o opts.runID none := by
  obtain ⟨rid, jid, pr, w, lg, ex, cp⟩ := opts
  cases jid with
  | nil => rfl
  | cons c cs => cases hj

theorem resolveTarget_job_head {opts : Opts} {o : Oracles}
    (hj : opts.jobID ≠ []) :
    ∃ t, (resolveTarget opts o).1 = Call.getJob opts.jobID :: t := by
  obtain ⟨rid, jid, pr, w, lg, ex, cp⟩ := opts
  cases jid with
  | nil => exact absurd rfl hj
  | cons c cs =>
    cases hg : o.getJob (c :: cs) with
    | error e =>
      refine ⟨[], ?_⟩
      simp [resolveTarget, hg]
    | ok j =>
      refine ⟨(resolvePromptPhase ⟨rid, c :: cs, pr, w, lg, ex, cp⟩ o
        (intToStr j.runID) (some j)).1, ?_⟩
      simp [resolveTarget, hg]

theorem resolveTarget_job_ok {opts : Opts} {o : Oracles} {j : Job}
    (hj : opts.jobID ≠ []) (hp : opts.prompt = false)
    (hg : o.getJob opts.jobID = .ok j) :
    ∃ t, (resolveTarget opts o).1
      = Call.getJob opts.jobID :: Call.getRun (intToStr j.runID) :: t := by
  obtain ⟨rid, jid, pr, w, lg, ex, cp⟩ := opts
  cases jid with
  | nil => exact absurd rfl hj
  | cons c cs =>
    simp only at hg hp
    subst hp
    obtain ⟨t, ht⟩ := resolveRunPhase_head
      ⟨rid, c :: cs, false, w, lg, ex, cp⟩ o (intToStr j.runID) (some j)
    refine ⟨t, ?_⟩
    simp [resolveTarget, hg, resolvePromptPhase, ht]

theorem runView_trace (opts : Opts) (o : Oracles) :
    ∃ s, (runView opts o).trace = (resolveTarget opts o).1 ++ s := by
  cases hr : (resolveTarget opts o).2 with
  | error v =>
    refine ⟨[], ?_⟩
    simp [runView, hr]
  | ok tgt =>
    obtain ⟨run, sel, jobs⟩ := tgt
    refine ⟨(phaseOf opts o run sel jobs).trace, ?_⟩
    simp [runView, hr]

/-! ## Claim theorems -/

/-- C2, counterexample: the claim asserts that `job/1_step_name.txt` parses
successfully with step name `step_name` (split on the first underscore only).
In the source `strings.Split` splits on every underscore, the three-part
result fails the two-part check, and the whole parse fails with
`InvalidStepFilename`. -/
theorem c2_counterexample :
    readRunLog [⟨"job/1_step_name.txt".data, "x".data⟩]
      = ([], some .invalidStepFilename) := by decide

/-- C2, amended: for every non-skipped archive entry the filename (without
directory and extension handling as in the source) is split on EVERY
underscore, and the entry is rejected with `InvalidStepFilename` exactly when
this split does not yield two parts or the order token does not parse as an
integer; in particular a step-name portion containing an underscore makes the
parse fail. -/
theorem c2_split_on_every_underscore {e : Entry} (h : isLogEntry e = true) :
    processEntry e = .bad
      ↔ ((splitOnChar '_' (entryFile e)).length ≠ 2
         ∨ atoi ((splitOnChar '_' (entryFile e)).getD 0 []) = none) :=
  processEntry_bad_iff h

/-- Witness for C2: the entry `job/1_step_name.txt` is a log entry and is
rejected, its three-part split failing the two-part requirement. -/
theorem c2_witness :
    isLogEntry ⟨"job/1_step_name.txt".data, "x".data⟩ = true
    ∧ (processEntry ⟨"job/1_step_name.txt".data, "x".data⟩ = .bad
       ↔ ((splitOnChar '_' (entryFile ⟨"job/1_step_name.txt".data, "x".data⟩)).length ≠ 2
          ∨ atoi ((splitOnChar '_'
              (entryFile ⟨"job/1_step_name.txt".data, "x".data⟩)).getD 0 []) = none)) :=
  ⟨by decide, c2_split_on_every_underscore (by decide)⟩

/-- C3: an archive containing at least one non-skipped entry whose base
filename does not split into exactly two parts on underscores (zero or more
than one underscore), or whose order token is not numeric, makes `readRunLog`
fail with `InvalidStepFilename` for the whole archive: the second component
of the result is the error no matter where the bad entry sits, so no
successful parse is produced (the caller discards the accompanying partial
map, view.go:259-262). -/
theorem c3_one_bad_entry_fails_whole_parse (es : List Entry) (e : Entry)
    (he : e ∈ es) (hlog : isLogEntry e = true)
    (hbad : (splitOnChar '_' (entryFile e)).length ≠ 2
            ∨ atoi ((splitOnChar '_' (entryFile e)).getD 0 []) = none) :
    (readRunLog es).2 = some .invalidStepFilename :=
  readRunLogAux_err he ((processEntry_bad_iff hlog).mpr hbad) []

/-- Witness for C3: an archive with one valid entry and one entry with no
underscore fails as a whole. -/
theorem c3_witness :
    (⟨"beta/nounderscore.txt".data, "x".data⟩ : Entry)
        ∈ [(⟨"alpha/1_build.txt".data, "ok".data⟩ : Entry),
           ⟨"beta/nounderscore.txt".data, "x".data⟩]
    ∧ isLogEntry ⟨"beta/nounderscore.txt".data, "x".data⟩ = true
    ∧ ((splitOnChar '_' (entryFile ⟨"beta/nounderscore.txt".data, "x".data⟩)).length ≠ 2
       ∨ atoi ((splitOnChar '_'
           (entryFile ⟨"beta/nounderscore.txt".data, "x".data⟩)).getD 0 []) = none)
    ∧ (readRunLog [(⟨"alpha/1_build.txt".data, "ok".data⟩ : Entry),
           ⟨"beta/nounderscore.txt".data, "x".data⟩]).2 = some .invalidStepFilename :=
  ⟨by decide, by decide, by decide,
   c3_one_bad_entry_fails_whole_parse
     [(⟨"alpha/1_build.txt".data, "ok".data⟩ : Entry),
      ⟨"beta/nounderscore.txt".data, "x".data⟩]
     ⟨"beta/nounderscore.txt".data, "x".data⟩
     (by decide) (by decide) (by decide)⟩

/-- C4, counterexample: the claim asserts that the order token `-1` (not a
non-negative integer) makes the parse fail.  In the source `strconv.Atoi`
accepts a leading minus sign, so the entry `-1_build.txt` under `job`
parses successfully and
stores a step of negative order `-1`. -/
theorem c4_counterexample :
    readRunLog [⟨"job/-1_build.txt".data, "x".data⟩]
      = ([("job".data, [⟨-1, "build".data, "x".data⟩])], none) := by decide

/-- C4, amended: the order token is parsed with Go's `strconv.Atoi`, which
accepts any optionally signed 64-bit integer literal; a valid token — negative
ones such as `-1` included — yields a step whose order is exactly that
integer, and only a token `Atoi` rejects makes the parse fail with
`InvalidStepFilename`.  Steps stored in the archive can therefore carry
negative orders. -/
theorem c4_signed_order_token {e : Entry} (h : isLogEntry e = true)
    (hl : (splitOnChar '_' (entryFile e)).length = 2) :
    (∀ k : Int, atoi ((splitOnChar '_' (entryFile e)).getD 0 []) = some k →
       processEntry e = .good (trimSuffix (entryDir e) ['/'])
         ⟨k, trimSuffix ((splitOnChar '_' (entryFile e)).getD 1 []) ".txt".data,
          e.content⟩)
    ∧ (atoi ((splitOnChar '_' (entryFile e)).getD 0 []) = none →
       processEntry e = .bad) :=
  ⟨fun _ ha => processEntry_good h hl ha,
   fun ha => (processEntry_bad_iff h).mpr (Or.inr ha)⟩

/-- Witness for C4: the entry `-1_build.txt` under `job` is accepted with
order `-1`. -/
theorem c4_witness :
    isLogEntry ⟨"job/-1_build.txt".data, "x".data⟩ = true
    ∧ (splitOnChar '_' (entryFile ⟨"job/-1_build.txt".data, "x".data⟩)).length = 2
    ∧ atoi ((splitOnChar '_'
        (entryFile ⟨"job/-1_build.txt".data, "x".data⟩)).getD 0 []) = some (-1)
    ∧ processEntry ⟨"job/-1_build.txt".data, "x".data⟩
      = .good (trimSuffix (entryDir ⟨"job/-1_build.txt".data, "x".data⟩) ['/'])
          ⟨-1, trimSuffix ((splitOnChar '_'
              (entryFile ⟨"job/-1_build.txt".data, "x".data⟩)).getD 1 []) ".txt".data,
           "x".data⟩ :=
  ⟨by decide, by decide, by decide,
   (c4_signed_order_token (by decide) (by decide)).1 (-1) (by decide)⟩

/-- C9: an archive entry `<job>/<n>_.txt`, whose single underscore immediately
precedes the extension, is accepted whenever the order token parses: the
underscore split yields the token and the bare extension, the extension is
trimmed away, and the recorded step has the empty string as its name. -/
theorem c9_empty_step_name (j tok content : Str) (k : Int)
    (hj : ('/' : Char) ∉ j) (ht1 : ('/' : Char) ∉ tok) (ht2 : ('_' : Char) ∉ tok)
    (ha : atoi tok = some k) :
    readRunLog [⟨j ++ '/' :: (tok ++ '_' :: '.' :: 't' :: 'x' :: 't' :: []), content⟩]
      = ([(j, [⟨k, [], content⟩])], none) := by
  have hsuf : ('/' : Char) ∉ tok ++ '_' :: '.' :: 't' :: 'x' :: 't' :: [] := by
    intro hmem
    rcases List.mem_append.mp hmem with h | h
    · exact ht1 h
    · simp at h
  have hdirfile :
      filepathSplit (j ++ '/' :: (tok ++ '_' :: '.' :: 't' :: 'x' :: 't' :: []))
        = (j ++ ['/'], tok ++ '_' :: '.' :: 't' :: 'x' :: 't' :: []) :=
    filepathSplit_append hj hsuf
  have hdir : entryDir ⟨j ++ '/' :: (tok ++ '_' :: '.' :: 't' :: 'x' :: 't' :: []), content⟩
      = j ++ ['/'] := by
    rw [entryDir]
    exact congrArg Prod.fst hdirfile
  have hfile : entryFile ⟨j ++ '/' :: (tok ++ '_' :: '.' :: 't' :: 'x' :: 't' :: []), content⟩
      = tok ++ '_' :: '.' :: 't' :: 'x' :: 't' :: [] := by
    rw [entryFile]
    exact congrArg Prod.snd hdirfile
  have hassoc : j ++ '/' :: (tok ++ '_' :: '.' :: 't' :: 'x' :: 't' :: [])
      = (j ++ '/' :: (tok ++ ['_'])) ++ ('.' :: 't' :: 'x' :: 't' :: []) := by
    simp
  have hext : filepathExt (j ++ '/' :: (tok ++ '_' :: '.' :: 't' :: 'x' :: 't' :: []))
      = '.' :: 't' :: 'x' :: 't' :: [] := by
    rw [hassoc, filepathExt_txt]
  have hlog : isLogEntry ⟨j ++ '/' :: (tok ++ '_' :: '.' :: 't' :: 'x' :: 't' :: []), content⟩
      = true := by
    simp [isLogEntry, entryDir, hdirfile, hext]
  have hparts : splitOnChar '_'
      (entryFile ⟨j ++ '/' :: (tok ++ '_' :: '.' :: 't' :: 'x' :: 't' :: []), content⟩)
        = [tok, '.' :: 't' :: 'x' :: 't' :: []] := by
    rw [hfile, splitOnChar_append_sep ht2]
    rfl
  have hlen : (splitOnChar '_'
      (entryFile ⟨j ++ '/' :: (tok ++ '_' :: '.' :: 't' :: 'x' :: 't' :: []), content⟩)).length
        = 2 := by
    rw [hparts]
    rfl
  have hget0 : (splitOnChar '_'
      (entryFile ⟨j ++ '/' :: (tok ++ '_' :: '.' :: 't' :: 'x' :: 't' :: []), content⟩)).getD 0 []
        = tok := by
    rw [hparts]
    rfl
  have ha' : atoi ((splitOnChar '_'
      (entryFile ⟨j ++ '/' :: (tok ++ '_' :: '.' :: 't' :: 'x' :: 't' :: []), content⟩)).getD 0 [])
        = some k := by
    rw [hget0]
    exact ha
  have hpe : processEntry ⟨j ++ '/' :: (tok ++ '_' :: '.' :: 't' :: 'x' :: 't' :: []), content⟩
      = .good j ⟨k, [], content⟩ := by
    rw [processEntry_good hlog hlen ha', hparts, hdir, trimSuffix_append j ['/']]
    rfl
  simp only [readRunLog, readRunLogAux, hpe]
  rfl

/-- Witness for C9: the entry `beta/7_.txt` is accepted as job `beta`, order
`7`, empty step name. -/
theorem c9_witness :
    (('/' : Char) ∉ "beta".data) ∧ (('/' : Char) ∉ "7".data)
    ∧ (('_' : Char) ∉ "7".data) ∧ atoi "7".data = some 7
    ∧ readRunLog [⟨"beta".data ++ '/' :: ("7".data ++ '_' :: '.' :: 't' :: 'x' :: 't' :: []),
        "hi".data⟩] = ([("beta".data, [⟨7, [], "hi".data⟩])], none) :=
  ⟨by decide, by decide, by decide, by decide,
   c9_empty_step_name "beta".data "7".data "hi".data 7
     (by decide) (by decide) (by decide) (by decide)⟩

/-- C6, counterexample: the claim asserts one output line per input log line
for every well-formed archive.  A valid archive whose single step's log is one
unterminated 65536-character line parses fine and has exactly one input line,
yet the renderer emits nothing: the line reaches `bufio`'s maximum token size,
`Scan` stops with `ErrTooLong`, and the source never checks `scanner.Err()`. -/
theorem c6_counterexample :
    (readRunLog c6BadArchive).2 = none
    ∧ (readRunLog c6BadArchive).1 = [("job".data, [⟨1, "build".data, bigLine⟩])]
    ∧ (specLines bigLine).length = 1
    ∧ displayRunLog (readRunLog c6BadArchive).1 = [] := by
  have hlen0 : bigLine.length = 65536 := List.length_replicate 65536 'a'
  have hne : bigLine ≠ [] := by
    intro h
    rw [h] at hlen0
    exact absurd hlen0 (by decide)
  have hlen : maxTokenSize ≤ bigLine.length := by
    rw [hlen0]
    exact Nat.le_refl _
  have hmem : ('\n' : Char) ∉ bigLine := by
    intro h
    exact absurd (List.eq_of_mem_replicate h) (by decide)
  have hsplit : splitOnChar '\n' bigLine = [bigLine] := splitOnChar_of_not_mem hmem
  have hscan : scanLines bigLine = [] := by
    have h0 : scanLines bigLine = scanLinesAux (splitOnChar '\n' bigLine) := rfl
    rw [h0, hsplit]
    rw [show scanLinesAux [bigLine]
        = if bigLine = [] then []
          else if maxTokenSize ≤ bigLine.length then [] else [dropCR bigLine] from rfl]
    rw [if_neg hne, if_pos hlen]
  have hspec : specLines bigLine = [bigLine] := by
    have h0 : specLines bigLine = dropLastEmpty (splitOnChar '\n' bigLine) := rfl
    rw [h0, hsplit]
    rw [show dropLastEmpty [bigLine] = if bigLine = [] then [] else [bigLine] from rfl]
    rw [if_neg hne]
  have hrl : readRunLog c6BadArchive
      = ([("job".data, [⟨1, "build".data, bigLine⟩])], none) := rfl
  have hstep : stepLines "job".data ⟨1, "build".data, bigLine⟩ = [] := by
    show (scanLines bigLine).map _ = []
    rw [hscan]
    rfl
  refine ⟨by rw [hrl], by rw [hrl], by rw [hspec]; rfl, ?_⟩
  rw [hrl]
  have hd : displayRunLog [("job".data, [⟨1, "build".data, bigLine⟩])]
      = (stepLines "job".data ⟨1, "build".data, bigLine⟩ ++ []) ++ [] := rfl
  rw [hd, hstep]
  rfl

/-- C6, amended: for every archive that parses successfully and in which every
`\n`-separated segment of every step's log is shorter than the scanner's
64 KiB token limit, the rendered output is exactly one line per input log line
(split on `\n`, a trailing unterminated line still counted, one trailing `\r`
per line removed), each prefixed with `jobName TAB stepName TAB`, jobs in
ascending name order and steps in ascending order-field order. -/
theorem c6_round_trip_lines (es : List Entry)
    (_hok : (readRunLog es).2 = none)
    (hshort : ∀ p ∈ (readRunLog es).1, ∀ st ∈ p.2,
       ∀ seg ∈ splitOnChar '\n' st.logs, seg.length < maxTokenSize) :
    displayRunLog (readRunLog es).1
      = concatMap (fun n =>
          concatMap (fun st => (specLines st.logs).map
              (fun line => n ++ '\t' :: st.name ++ '\t' :: dropCR line))
            (sortSteps (lookupJob (readRunLog es).1 n)))
          (sortNames ((readRunLog es).1.map Prod.fst)) := by
  rw [displayRunLog]
  apply concatMap_congr
  intro n hn
  apply concatMap_congr
  intro st hst
  have hn' : n ∈ (readRunLog es).1.map Prod.fst := mem_sortNames.mp hn
  have hp := lookupJob_mem hn'
  have hst' : st ∈ lookupJob (readRunLog es).1 n := mem_sortSteps.mp hst
  have hsegs := hshort _ hp st hst'
  simp only [stepLines]
  rw [scanLines_of_short hsegs, List.map_map]
  rfl

/-- Witness for C6: the spec §8 example archive renders to exactly the spec's
three expected lines. -/
theorem c6_witness :
    (readRunLog c6ExArchive).2 = none
    ∧ (∀ p ∈ (readRunLog c6ExArchive).1, ∀ st ∈ p.2,
        ∀ seg ∈ splitOnChar '\n' st.logs, seg.length < maxTokenSize)
    ∧ displayRunLog (readRunLog c6ExArchive).1
      = ["alpha\tbuild\tok".data, "alpha\ttest\tfail".data, "beta\tbuild\tok".data] :=
  ⟨by decide, by decide,
   (c6_round_trip_lines c6ExArchive (by decide) (by decide)).trans (by decide)⟩

/-- C1, failing-input evaluation: `gh run view 123 --log --exit-status` with
run 123 completed and concluded `Failure`, and a valid archive.  The claim
(and the flag's own help text, view.go:129) requires a non-zero exit, but the
whole-run `--log` path returns success: `runView` returns
`displayRunLog(...)` at view.go:264 without ever consulting
`opts.ExitStatus`, so the process exits zero. -/
theorem c1_run_log_path_ignores_exit_status :
    c1Input.exitStatus = true ∧ c1Input.log = true ∧ c1Input.jobID = []
    ∧ c1Oracles.getRun "123".data = .ok failedRun
    ∧ failedRun.status = .completed
    ∧ isFailureState failedRun.conclusion = true
    ∧ (runCommand c1Input c1Oracles).outcome = .ok := by
  exact ⟨rfl, rfl, rfl, rfl, rfl, rfl, by decide⟩

/-- C7: whenever a job id is supplied (and the flag combination is valid),
the first collaborator call of the whole invocation fetches that job; when
that fetch succeeds with job `j`, the next call fetches the run whose id is
`j`'s owning run id — whatever run id was supplied positionally is discarded —
and the both-ids warning is printed exactly when a non-empty run id was also
supplied and the terminal is interactive. -/
theorem c7_job_id_determines_target (i : CmdInput) (o : Oracles)
    (hj : i.jobID ≠ []) (hwl : (i.web && i.log) = false) :
    (∃ t, (runCommand i o).trace = Call.getJob i.jobID :: t)
    ∧ (∀ j : Job, o.getJob i.jobID = .ok j →
        ∃ t, (runCommand i o).trace
          = Call.getJob i.jobID :: Call.getRun (intToStr j.runID) :: t)
    ∧ wireWarned i = (!(i.arg.getD []).isEmpty && i.canPrompt) := by
  obtain ⟨rid, hw⟩ := wire_job hj hwl
  have hrc : runCommand i o
      = runView ⟨rid, i.jobID, false, i.web, i.log, i.exitStatus, i.canPrompt⟩ o := by
    simp only [runCommand, hw]
  have hjne : (⟨rid, i.jobID, false, i.web, i.log, i.exitStatus,
      i.canPrompt⟩ : Opts).jobID ≠ [] := hj
  refine ⟨?_, ?_, ?_⟩
  · obtain ⟨s, hs⟩ := runView_trace
      ⟨rid, i.jobID, false, i.web, i.log, i.exitStatus, i.canPrompt⟩ o
    obtain ⟨t, ht⟩ := resolveTarget_job_head hjne
    exact ⟨t ++ s, by rw [hrc, hs, ht, List.cons_append]⟩
  · intro j hg
    obtain ⟨s, hs⟩ := runView_trace
      ⟨rid, i.jobID, false, i.web, i.log, i.exitStatus, i.canPrompt⟩ o
    obtain ⟨t, ht⟩ := resolveTarget_job_ok hjne rfl hg
    refine ⟨t ++ s, ?_⟩
    rw [hrc, hs, ht]
    simp
  · cases hcase : i.jobID with
    | nil => exact absurd hcase hj
    | cons c cs => simp [wireWarned, hcase]

/-- Witness for C7: `gh run view 99 --job 456` interactively, with job 456
owned by run 123: the job is fetched first, run `123` (not `99`) is fetched
next, and the warning is shown. -/
theorem c7_witness :
    (c7Input.jobID ≠ []) ∧ ((c7Input.web && c7Input.log) = false)
    ∧ ((∃ t, (runCommand c7Input c7Oracles).trace
          = Call.getJob c7Input.jobID :: t)
       ∧ (∀ j : Job, c7Oracles.getJob c7Input.jobID = .ok j →
           ∃ t, (runCommand c7Input c7Oracles).trace
             = Call.getJob c7Input.jobID :: Call.getRun (intToStr j.runID) :: t)
       ∧ wireWarned c7Input = (!(c7Input.arg.getD []).isEmpty && c7Input.canPrompt)) :=
  ⟨by decide, by decide,
   c7_job_id_determines_target c7Input c7Oracles (by decide) (by decide)⟩

theorem exactlyOneRes_of_missing {i : CmdInput} {r : Result}
    (h1 : r.outcome = .flagErr .missingTarget) (h2 : r.trace = []) :
    exactlyOneRes i r := by
  refine ⟨Or.inl ⟨h1, h2⟩, ?_, ?_, ?_, ?_, ?_, ?_⟩
  · rintro ⟨-, jid, t, ht⟩
    rw [h2] at ht
    cases ht
  · rintro ⟨-, t, ht⟩
    rw [h2] at ht
    cases ht
  · rintro ⟨-, rid, t, -, ht⟩
    rw [h2] at ht
    cases ht
  · rintro ⟨⟨jid, t, ht⟩, -⟩
    rw [h2] at ht
    cases ht
  · rintro ⟨⟨jid, t, ht⟩, -⟩
    rw [h2] at ht
    cases ht
  · rintro ⟨⟨t, ht⟩, -⟩
    rw [h2] at ht
    cases ht

theorem exactlyOneRes_of_getJob {i : CmdInput} {r : Result} {jid : Str}
    {t : List Call} (h : r.trace = Call.getJob jid :: t) :
    exactlyOneRes i r := by
  refine ⟨Or.inr (Or.inl ⟨jid, t, h⟩), ?_, ?_, ?_, ?_, ?_, ?_⟩
  · rintro ⟨⟨-, h2⟩, -⟩
    rw [h] at h2
    cases h2
  · rintro ⟨⟨-, h2⟩, -⟩
    rw [h] at h2
    cases h2
  · rintro ⟨⟨-, h2⟩, -⟩
    rw [h] at h2
    cases h2
  · rintro ⟨-, t2, h2⟩
    rw [h] at h2
    simp at h2
  · rintro ⟨-, rid, t2, -, h2⟩
    rw [h] at h2
    simp at h2
  · rintro ⟨⟨t2, h2⟩, -⟩
    rw [h] at h2
    simp at h2

theorem exactlyOneRes_of_getRuns {i : CmdInput} {r : Result}
    {t : List Call} (h : r.trace = Call.getRuns 10 :: t) :
    exactlyOneRes i r := by
  refine ⟨Or.inr (Or.inr (Or.inl ⟨t, h⟩)), ?_, ?_, ?_, ?_, ?_, ?_⟩
  · rintro ⟨⟨-, h2⟩, -⟩
    rw [h] at h2
    cases h2
  · rintro ⟨⟨-, h2⟩, -⟩
    rw [h] at h2
    cases h2
  · rintro ⟨⟨-, h2⟩, -⟩
    rw [h] at h2
    cases h2
  · rintro ⟨⟨jid, t2, h2⟩, -⟩
    rw [h] at h2
    simp at h2
  · rintro ⟨⟨jid, t2, h2⟩, -⟩
    rw [h] at h2
    simp at h2
  · rintro ⟨-, rid, t2, -, h2⟩
    rw [h] at h2
    simp at h2

theorem exactlyOneRes_of_getRun {i : CmdInput} {r : Result} {rid : Str}
    {t : List Call} (ha : i.arg = some rid)
    (h : r.trace = Call.getRun rid :: t) :
    exactlyOneRes i r := by
  refine ⟨Or.inr (Or.inr (Or.inr ⟨rid, t, ha, h⟩)), ?_, ?_, ?_, ?_, ?_, ?_⟩
  · rintro ⟨⟨-, h2⟩, -⟩
    rw [h] at h2
    cases h2
  · rintro ⟨⟨-, h2⟩, -⟩
    rw [h] at h2
    cases h2
  · rintro ⟨⟨-, h2⟩, -⟩
    rw [h] at h2
    cases h2
  · rintro ⟨⟨jid, t2, h2⟩, -⟩
    rw [h] at h2
    simp at h2
  · rintro ⟨⟨jid, t2, h2⟩, -⟩
    rw [h] at h2
    simp at h2
  · rintro ⟨⟨t2, h2⟩, -⟩
    rw [h] at h2
    simp at h2

/-- C8: over (run id present?, job id present?, interactive?), with a valid
flag combination, resolution is total and exclusive — exactly one of
{missing-target error, job-derived target, prompted target, direct target}
happens, observed through the invocation's first collaborator call (or the
absence of any).  Moreover: with neither id and a non-interactive session the
missing-target error is produced with an empty call trace (before any network
access), and with neither id interactively the flow first lists exactly the 10
most recent runs and hands that list to the selection prompt. -/
theorem c8_resolution_total_and_exclusive (i : CmdInput) (o : Oracles)
    (hwl : (i.web && i.log) = false) :
    exactlyOneRes i (runCommand i o)
    ∧ (i.arg = none → i.jobID = [] → i.canPrompt = false →
        runCommand i o = ⟨[], .flagErr .missingTarget, []⟩)
    ∧ (i.arg = none → i.jobID = [] → i.canPrompt = true →
        ∀ runs : List Run, o.getRuns 10 = .ok runs →
          ∃ t, (runCommand i o).trace
            = Call.getRuns 10 :: Call.promptRun runs :: t) := by
  by_cases hj : i.jobID = []
  · cases harg : i.arg with
    | some r =>
      have hw := wire_direct harg hj hwl
      have hrc : runCommand i o
          = runView ⟨r, [], false, i.web, i.log, i.exitStatus, i.canPrompt⟩ o := by
        simp only [runCommand, hw]
      have htr : ∃ t', (runCommand i o).trace = Call.getRun r :: t' := by
        rw [hrc]
        obtain ⟨s, hs⟩ := runView_trace
          ⟨r, [], false, i.web, i.log, i.exitStatus, i.canPrompt⟩ o
        rw [hs, resolveTarget_nojob
          ⟨r, [], false, i.web, i.log, i.exitStatus, i.canPrompt⟩ o rfl]
        rw [resolvePromptPhase_noprompt
          ⟨r, [], false, i.web, i.log, i.exitStatus, i.canPrompt⟩ o
          (⟨r, [], false, i.web, i.log, i.exitStatus, i.canPrompt⟩ : Opts).runID
          none rfl]
        obtain ⟨t, ht⟩ := resolveRunPhase_head
          ⟨r, [], false, i.web, i.log, i.exitStatus, i.canPrompt⟩ o
          (⟨r, [], false, i.web, i.log, i.exitStatus, i.canPrompt⟩ : Opts).runID
          none
        rw [ht, List.cons_append]
        exact ⟨t ++ s, rfl⟩
      obtain ⟨t', htr⟩ := htr
      refine ⟨exactlyOneRes_of_getRun harg htr, ?_, ?_⟩
      · intro h1
        simp at h1
      · intro h1
        simp at h1
    | none =>
      cases hcp : i.canPrompt with
      | false =>
        have hw := wire_missing harg hj hcp
        have hrc : runCommand i o = ⟨[], .flagErr .missingTarget, []⟩ := by
          simp only [runCommand, hw]
        refine ⟨exactlyOneRes_of_missing (by rw [hrc]) (by rw [hrc]),
          fun _ _ _ => hrc, ?_⟩
        intro _ _ h3
        simp at h3
      | true =>
        have hw := wire_prompt harg hj hcp hwl
        have hrc : runCommand i o
            = runView ⟨[], [], true, i.web, i.log, i.exitStatus, i.canPrompt⟩ o := by
          simp only [runCommand, hw]
        obtain ⟨s, hs⟩ := runView_trace
          ⟨[], [], true, i.web, i.log, i.exitStatus, i.canPrompt⟩ o
        have hrt := resolveTarget_nojob
          ⟨[], [], true, i.web, i.log, i.exitStatus, i.canPrompt⟩ o rfl
        have htr : ∃ t', (runCommand i o).trace = Call.getRuns 10 :: t' := by
          rw [hrc, hs, hrt]
          obtain ⟨t, ht⟩ := resolvePromptPhase_prompt_head
            ⟨[], [], true, i.web, i.log, i.exitStatus, i.canPrompt⟩ o
            (⟨[], [], true, i.web, i.log, i.exitStatus, i.canPrompt⟩ : Opts).runID
            none rfl
          rw [ht, List.cons_append]
          exact ⟨t ++ s, rfl⟩
        obtain ⟨t', htr⟩ := htr
        refine ⟨exactlyOneRes_of_getRuns htr, ?_, ?_⟩
        · intro _ _ h3
          simp at h3
        · intro _ _ _ runs hruns
          rw [hrc, hs, hrt]
          obtain ⟨t, ht⟩ := resolvePromptPhase_prompt_two
            ⟨[], [], true, i.web, i.log, i.exitStatus, i.canPrompt⟩ o
            (⟨[], [], true, i.web, i.log, i.exitStatus, i.canPrompt⟩ : Opts).runID
            none rfl hruns
          rw [ht, List.cons_append]
          exact ⟨t ++ s, rfl⟩
  · obtain ⟨rid, hw⟩ := wire_job hj hwl
    have hrc : runCommand i o
        = runView ⟨rid, i.jobID, false, i.web, i.log, i.exitStatus, i.canPrompt⟩ o := by
      simp only [runCommand, hw]
    have hjne : (⟨rid, i.jobID, false, i.web, i.log, i.exitStatus,
        i.canPrompt⟩ : Opts).jobID ≠ [] := hj
    obtain ⟨s, hs⟩ := runView_trace
      ⟨rid, i.jobID, false, i.web, i.log, i.exitStatus, i.canPrompt⟩ o
    obtain ⟨t, ht⟩ := resolveTarget_job_head hjne
    have htr : (runCommand i o).trace = Call.getJob i.jobID :: (t ++ s) := by
      rw [hrc, hs, ht, List.cons_append]
    refine ⟨exactlyOneRes_of_getJob htr, ?_, ?_⟩
    · intro _ h2 _
      exact absurd h2 hj
    · intro _ h2 _
      exact absurd h2 hj

/-- Witness for C8: `gh run view 123` non-interactively resolves in exactly
one way (the direct-target way). -/
theorem c8_witness :
    ((c8Input.web && c8Input.log) = false)
    ∧ exactlyOneRes c8Input (runCommand c8Input stubOracles) :=
  ⟨by decide,
   (c8_resolution_total_and_exclusive c8Input stubOracles (by decide)).1⟩

/-- C10: when the archive has a first invalid entry, `readRunLog` returns the
`InvalidStepFilename` error together with the partial mapping holding exactly
the steps of the valid entries processed before it (the Go function returns
its non-nil `make`d map alongside the error); and the whole-run log path
propagates that error — its outcome is the parse failure and its output is
empty, so the partial hierarchy is never rendered (`displayRunLog` is never
reached, view.go:259-264). -/
theorem c10_partial_map_and_no_render (pre : List Entry) (e : Entry)
    (post : List Entry) (o : Oracles) (run : Run)
    (hpre : ∀ x ∈ pre, processEntry x ≠ .bad) (he : processEntry e = .bad)
    (hst : run.status = .completed)
    (hfetch : o.getRunLog run.id = .ok (pre ++ e :: post)) :
    readRunLog (pre ++ e :: post)
      = ((readRunLog pre).1, some .invalidStepFilename)
    ∧ (runLogPhase o run).outcome = .parseFail .invalidStepFilename
    ∧ (runLogPhase o run).output = [] := by
  have h1 : readRunLog (pre ++ e :: post)
      = ((readRunLog pre).1, some .invalidStepFilename) :=
    readRunLogAux_partial post hpre he []
  have h1' : (readRunLog (pre ++ e :: post)).2 = some .invalidStepFilename := by
    rw [h1]
  have hns : ¬ run.status ≠ Status.completed := by simp [hst]
  have h2 : runLogPhase o run
      = ⟨[.getRunLog run.id], .parseFail .invalidStepFilename, []⟩ := by
    simp only [runLogPhase, if_neg hns, hfetch, h1']
  exact ⟨h1, by rw [h2], by rw [h2]⟩

/-- Witness for C10: an archive with one valid entry followed by one invalid
entry yields the one-job partial map with the error, and the run-log path
renders nothing. -/
theorem c10_witness :
    (∀ x ∈ [c10Good], processEntry x ≠ .bad)
    ∧ processEntry c10Bad = .bad
    ∧ failedRun.status = .completed
    ∧ c10Oracles.getRunLog failedRun.id = .ok ([c10Good] ++ c10Bad :: [])
    ∧ (readRunLog ([c10Good] ++ c10Bad :: [])
        = ((readRunLog [c10Good]).1, some .invalidStepFilename)
       ∧ (runLogPhase c10Oracles failedRun).outcome
          = .parseFail .invalidStepFilename
       ∧ (runLogPhase c10Oracles failedRun).output = []) :=
  ⟨by decide, by decide, rfl, rfl,
   c10_partial_map_and_no_render [c10Good] c10Bad [] c10Oracles failedRun
     (by decide) (by decide) rfl rfl⟩
